import Mathlib

/-!
Shallow embedding of the core of the asteroid-gliders repository and proofs
about it.

The embedded code is the variant that the build actually compiles
(`CMakeLists.txt` builds `src/glider.cpp`, which includes `src/point.hpp`,
`src/integrator.hpp`, `src/system.hpp` and `src/glider.hpp`).  `float`
values are modelled as real numbers; the IEEE aspects that one claim hinges
on (NaN produced by `0.0f/0.0f` and the fact that comparisons with NaN are
false) are modelled separately at the end of the definitions section with
an `Option ℝ` scalar type.

Random data is made explicit: the orbit direction drawn from the
process-global `rand()` stream becomes a `Bool` (or `ℕ → Bool`) argument,
and the candidate start points drawn from `std::mt19937` plus
`std::uniform_real_distribution` (whose algorithm is implementation
defined) become a `ℕ → point` argument.
-/

open Classical

noncomputable section

/-- The 2D vector type `point` from `src/point.hpp`, with `float`
coordinates modelled as real numbers.  Only the members used by the core
are embedded (arithmetic, `sqmag`, `mag`, `norm`); `arg`, `crossp`, `dotp`
and the RNG member `randomPoint` are not used by the embedded functions. -/
structure point where
  x : ℝ
  y : ℝ

namespace point

instance : Add point := ⟨fun p q => ⟨p.x + q.x, p.y + q.y⟩⟩

instance : Sub point := ⟨fun p q => ⟨p.x - q.x, p.y - q.y⟩⟩

instance : Neg point := ⟨fun p => ⟨-p.x, -p.y⟩⟩

/-- `operator*(const point&, float)` from `src/point.hpp`. -/
instance : HMul point ℝ point := ⟨fun p f => ⟨p.x * f, p.y * f⟩⟩

/-- `operator*(float, const point&)` from `src/point.hpp`. -/
instance : HMul ℝ point point := ⟨fun f p => ⟨p.x * f, p.y * f⟩⟩

/-- `operator/(const float)` from `src/point.hpp`. -/
instance : HDiv point ℝ point := ⟨fun p f => ⟨p.x / f, p.y / f⟩⟩

/-- `point::sqmag` from `src/point.hpp`. -/
def sqmag (p : point) : ℝ := p.x * p.x + p.y * p.y

/-- `point::mag` from `src/point.hpp`. -/
def mag (p : point) : ℝ := Real.sqrt p.sqmag

/-- `point::norm` from `src/point.hpp`. -/
def norm (p : point) : point := p / p.mag

end point

namespace integrator

/-- `integrator::explicitEuler` from `src/integrator.hpp`, generic over the
vector space exactly as the C++ template is. -/
def explicitEuler {V : Type} [Add V] [HMul ℝ V V] (start : V) (f : V → V) (stepsize : ℝ) : V :=
  let k1 := stepsize * f start
  start + k1

/-- `integrator::midpoint` from `src/integrator.hpp`. -/
def midpoint {V : Type} [Add V] [HMul ℝ V V] [HDiv V ℝ V] (start : V) (f : V → V) (stepsize : ℝ) : V :=
  let k1 := stepsize * f start
  let k2 := stepsize * f (start + k1 / (2 : ℝ))
  start + k2

/-- `integrator::rungeKutta4` from `src/integrator.hpp`. -/
def rungeKutta4 {V : Type} [Add V] [HMul ℝ V V] [HDiv V ℝ V] (start : V) (f : V → V) (stepsize : ℝ) : V :=
  let k1 := stepsize * f start
  let k2 := stepsize * f (start + k1 / (2 : ℝ))
  let k3 := stepsize * f (start + k2 / (2 : ℝ))
  let k4 := stepsize * f (start + k3)
  start + (k1 + (2 : ℝ) * k2 + (2 : ℝ) * k3 + k4) / (6 : ℝ)

end integrator

/-- `Planet` from `src/system.hpp`. -/
structure Planet where
  pos : point
  mass : ℝ
  ccw : Bool

/-- `System` from `src/system.hpp`.  The private `bounds` member is used
only by `populatePlanets` (RNG-driven construction, not embedded), so the
embedded structure carries just the planet list. -/
structure System where
  planets : List Planet

/-- The fixed gravitational constant from `src/system.hpp`. -/
def gravitational_constant : ℝ := 2000

/-- `System::probeGravity` from `src/system.hpp`. -/
def System.probeGravity (s : System) (pos : point) : point :=
  let out := s.planets.foldl
    (fun out p =>
      let r := pos - p.pos
      out - r.norm / r.sqmag * p.mass)
    (⟨0, 0⟩ : point)
  out * gravitational_constant

/-- `System::probePotential` from `src/system.hpp`. -/
def System.probePotential (s : System) (pos : point) : ℝ :=
  let out := s.planets.foldl (fun out p => out - p.mass / (pos - p.pos).mag) 0
  out * gravitational_constant

/-- `System::probeAngularPotentialGradient` from `src/system.hpp`. -/
def System.probeAngularPotentialGradient (s : System) (pos : point) : point :=
  s.planets.foldl
    (fun out p =>
      let r := pos - p.pos
      let planet_contribution := p.mass * (if p.ccw then (1 : ℝ) else -1) / r.sqmag
      out + (⟨r.y, -r.x⟩ : point) * planet_contribution)
    (⟨0, 0⟩ : point)

/-- The lambda `gradient_func` built inside `gliderStep`
(`src/glider.hpp`): perpendicular of the blended total gradient,
normalized, oriented by `ccw`. -/
def gradient_func (angular_potential_factor : ℝ) (system : System) (ccw : Bool)
    (pos : point) : point :=
  let gravity_potential_gradient := -system.probeGravity pos
  let angular_gradient := angular_potential_factor * system.probeAngularPotentialGradient pos
  let total_gradient := gravity_potential_gradient - angular_gradient
  let equipot_motion := (⟨-total_gradient.y, total_gradient.x⟩ : point).norm
  equipot_motion * (if ccw then (1 : ℝ) else -1)

/-- `gliderStep` from `src/glider.hpp`: one RK4 step of `gradient_func`
with the fixed step size 10. -/
def gliderStep (start_pos : point) (angular_potential_factor : ℝ) (system : System)
    (ccw : Bool) : point :=
  integrator.rungeKutta4 start_pos (gradient_func angular_potential_factor system ccw) 10

/-- `sq_lower_dist_limit` from `generateGliderTrajectory` (`src/glider.hpp`). -/
def sq_lower_dist_limit : ℝ := 0.005

/-- `sq_upper_dist_limit` from `generateGliderTrajectory` (`src/glider.hpp`). -/
def sq_upper_dist_limit : ℝ := 400

/-- The stepping loop of `generateGliderTrajectory` (`src/glider.hpp`):
at most `fuel` further steps from `pos`, stopping (without appending)
as soon as the squared step displacement leaves
`[sq_lower_dist_limit, sq_upper_dist_limit]`. -/
def genTrajAux (system : System) (spiral_factor : ℝ) (ccw : Bool) :
    point → Nat → List point
  | _, 0 => []
  | pos, fuel + 1 =>
    let new_pos := gliderStep pos spiral_factor system ccw
    let sq_last_dist := (new_pos - pos).sqmag
    if sq_last_dist > sq_upper_dist_limit ∨ sq_last_dist < sq_lower_dist_limit then []
    else new_pos :: genTrajAux system spiral_factor ccw new_pos fuel

/-- `generateGliderTrajectory` from `src/glider.hpp`.  The orbit direction
`const bool ccw = rand()&1;` is drawn from the process-global `rand()`
stream; it is made an explicit argument here. -/
def generateGliderTrajectory (pos : point) (system : System) (spiral_factor : ℝ)
    (max_steps : Nat) (ccw : Bool) : List point :=
  pos :: genTrajAux system spiral_factor ccw pos max_steps

/-- `std::numeric_limits<float>::max()`, the largest finite `float`,
exactly `(2 - 2^-23) * 2^127`. -/
def flt_max : ℝ := 2 ^ 128 - 2 ^ 104

/-- `std::numeric_limits<float>::min()`, the smallest positive normal
`float`, exactly `2^-126`.  (Note: this is a small positive number, not
the lowest `float`.) -/
def flt_min : ℝ := 1 / 2 ^ 126

/-- The inner nearest-planet loop of `scorePath` (`src/glider.hpp`):
running over `planet_id = 0, 1, ...` it keeps the first index whose
squared distance to `pos` strictly improves on the running minimum, which
starts at `std::numeric_limits<float>::max()` with index 0. -/
def scanClosestAux (pos : point) : List Planet → ℕ → ℕ × ℝ → ℕ × ℝ
  | [], _, acc => acc
  | p :: rest, planet_id, acc =>
    let r := p.pos - pos
    scanClosestAux pos rest (planet_id + 1)
      (if r.sqmag < acc.2 then (planet_id, r.sqmag) else acc)

/-- The nearest-planet computation of `scorePath`, index and squared
distance. -/
def scanClosest (system : System) (pos : point) : ℕ × ℝ :=
  scanClosestAux pos system.planets 0 (0, flt_max)

/-- The local state of the `scorePath` loop. -/
structure ScoreState where
  path_length : ℝ
  planet_switches : ℕ
  penalty : ℝ
  current_closest_planet : ℕ

/-- `system.planets[i]`: C++ `std::vector` indexing without a bounds
check (out-of-range access is undefined behaviour); modelled with a
default planet. -/
def System.planetAt (s : System) (i : ℕ) : Planet := s.planets.getD i ⟨⟨0, 0⟩, 0, false⟩

/-- The bounds test at the top of the `scorePath` loop
("Only count points inside bounds"). -/
def outsideBounds (bounds : point × point) (p : point) : Prop :=
  p.x < bounds.1.x ∨ p.y < bounds.1.y ∨ p.x > bounds.2.x ∨ p.y > bounds.2.y

/-- One iteration of the `scorePath` loop (`src/glider.hpp`), for the
path point `cur` preceded by `prev`. -/
def scoreStep (system : System) (bounds : point × point) (prev cur : point)
    (st : ScoreState) : ScoreState :=
  if outsideBounds bounds cur then
    { st with penalty := st.penalty + 3 }
  else
    let st1 := { st with path_length := st.path_length + (cur - prev).mag }
    let new_closest_planet := (scanClosest system cur).1
    let st2 :=
      if new_closest_planet ≠ st1.current_closest_planet then
        let r_current := (system.planetAt st1.current_closest_planet).pos - cur
        let r_new := (system.planetAt new_closest_planet).pos - cur
        if r_new.sqmag * 1.2 < r_current.sqmag then
          { st1 with current_closest_planet := new_closest_planet,
                     planet_switches := st1.planet_switches + 1 }
        else st1
      else st1
    let r := (system.planetAt st2.current_closest_planet).pos - cur
    if r.sqmag < 100 then { st2 with penalty := st2.penalty + 500 } else st2

/-- The `for (std::size_t i = 1; ...)` loop of `scorePath`, walking the
path with the previous point carried along. -/
def scoreLoop (system : System) (bounds : point × point) :
    point → List point → ScoreState → ScoreState
  | _, [], st => st
  | prev, p :: rest, st => scoreLoop system bounds p rest (scoreStep system bounds prev p st)

/-- `scorePath` from `src/glider.hpp`. -/
def scorePath (system : System) (bounds : point × point) (path : List point) : ℝ :=
  let st :=
    match path with
    | [] => (⟨0, 0, 0, 0⟩ : ScoreState)
    | p :: rest => scoreLoop system bounds p rest ⟨0, 0, 0, 0⟩
  0 * st.path_length + (st.planet_switches : ℝ) * 100 - st.penalty

/-- `max_attempts` from `findNicePath`. -/
def max_attempts : ℕ := 1000

/-- `findNicePath` from `src/glider.hpp`.  `sample i` models the `i`-th
result of `point::randomPoint(bounds, rng)` on the `std::mt19937` stream
seeded with `seed + 2000` (a function of the seed and bounds alone, with
an implementation-defined distribution); `ccw i` models the bit `rand()&1`
that the `i`-th `generateGliderTrajectory` call draws from the
process-global `rand()` stream.  `candidate_score` starts at
`std::numeric_limits<float>::min() = flt_min` and `candidate` as the
default-constructed `point` (0, 0). -/
def findNicePath (system : System) (spiral_factor : ℝ) (max_steps : ℕ)
    (bounds : point × point) (sample : ℕ → point) (ccw : ℕ → Bool) : point :=
  let result := (List.range max_attempts).foldl
    (fun (acc : ℝ × point) i =>
      let p := sample i
      let trajectory := generateGliderTrajectory p system spiral_factor max_steps (ccw i)
      let score := scorePath system bounds trajectory
      if score ≥ acc.1 then (score, p) else acc)
    (flt_min, (⟨0, 0⟩ : point))
  result.2

/-- Spec-side formula for the gravity probe (spec §4.1): "sum over planets
of `-normalize(p - planet.position) / |p - planet.position|² *
planet.mass`, scaled by a fixed gravitational constant `G = 2000.0`".
Written from the spec text, to be compared with `System.probeGravity`. -/
def specGravity (s : System) (p : point) : point :=
  (2000 : ℝ) *
    s.planets.foldr
      (fun pl acc => -(p - pl.pos).norm / (p - pl.pos).sqmag * pl.mass + acc)
      (⟨0, 0⟩ : point)

/-- Spec-side switch counter (spec §4.4): walks the path exactly as the
`scorePath` loop does, but tracks only the currently orbited planet and
the number of committed switches; the path length is not tracked. -/
def switchCountAux (system : System) (bounds : point × point) :
    point → List point → ℕ → ℕ
  | _, [], _ => 0
  | _prev, p :: rest, cur =>
    if outsideBounds bounds p then switchCountAux system bounds p rest cur
    else
      let nc := (scanClosest system p).1
      if nc ≠ cur ∧
          ((system.planetAt nc).pos - p).sqmag * 1.2 <
            ((system.planetAt cur).pos - p).sqmag then
        1 + switchCountAux system bounds p rest nc
      else switchCountAux system bounds p rest cur

/-- Number of committed planet switches along a path (spec §4.4). -/
def switchCount (system : System) (bounds : point × point) (path : List point) : ℕ :=
  match path with
  | [] => 0
  | p :: rest => switchCountAux system bounds p rest 0

/-- Spec-side penalty accumulator (spec §4.4): +3 per out-of-bounds point
and +500 per crash (squared distance to the currently orbited planet below
100), tracking the orbited planet exactly as the `scorePath` loop does. -/
def penaltyAux (system : System) (bounds : point × point) :
    point → List point → ℕ → ℝ
  | _, [], _ => 0
  | _prev, p :: rest, cur =>
    if outsideBounds bounds p then 3 + penaltyAux system bounds p rest cur
    else
      let nc := (scanClosest system p).1
      let cur2 :=
        if nc ≠ cur ∧
            ((system.planetAt nc).pos - p).sqmag * 1.2 <
              ((system.planetAt cur).pos - p).sqmag then
          nc
        else cur
      (if ((system.planetAt cur2).pos - p).sqmag < 100 then (500 : ℝ) else 0) +
        penaltyAux system bounds p rest cur2

/-- Total penalty accumulated along a path (spec §4.4). -/
def totalPenalty (system : System) (bounds : point × point) (path : List point) : ℝ :=
  match path with
  | [] => 0
  | p :: rest => penaltyAux system bounds p rest 0

/-!
IEEE refinement of the trajectory generator, used for the zero-planet edge
case.  A `float` is modelled as `Option ℝ`: `some a` is the finite value
`a`, `none` a non-finite result.  In the traces proved about below the
only non-finite value ever produced is the NaN from `0.0f/0.0f` (inside
`point::norm` on the zero vector); `odiv` also collapses `x/0` for `x ≠ 0`
(IEEE infinity) to `none`, but that case never arises here.  Comparisons
with `none` are false, as IEEE comparisons with NaN are.
-/

/-- IEEE addition on `Option ℝ`. -/
def oadd : Option ℝ → Option ℝ → Option ℝ
  | some a, some b => some (a + b)
  | _, _ => none

/-- IEEE subtraction on `Option ℝ`. -/
def osub : Option ℝ → Option ℝ → Option ℝ
  | some a, some b => some (a - b)
  | _, _ => none

/-- IEEE multiplication on `Option ℝ`. -/
def omul : Option ℝ → Option ℝ → Option ℝ
  | some a, some b => some (a * b)
  | _, _ => none

/-- IEEE negation on `Option ℝ`. -/
def oneg : Option ℝ → Option ℝ
  | some a => some (-a)
  | none => none

/-- IEEE division on `Option ℝ`; a zero divisor gives a non-finite
result (`0/0` is NaN). -/
def odiv : Option ℝ → Option ℝ → Option ℝ
  | some a, some b => if b = 0 then none else some (a / b)
  | _, _ => none

/-- IEEE square root on `Option ℝ` (negative arguments give NaN). -/
def osqrt : Option ℝ → Option ℝ
  | some a => if a < 0 then none else some (Real.sqrt a)
  | none => none

/-- IEEE strict less-than: any comparison involving NaN is false. -/
def olt : Option ℝ → Option ℝ → Prop
  | some a, some b => a < b
  | _, _ => False

/-- `point` with IEEE scalar components. -/
structure pointF where
  x : Option ℝ
  y : Option ℝ

/-- Embedding of an (always finite) `point` value into `pointF`. -/
def point.toF (p : point) : pointF := ⟨some p.x, some p.y⟩

namespace pointF

instance : Add pointF := ⟨fun p q => ⟨oadd p.x q.x, oadd p.y q.y⟩⟩

instance : Sub pointF := ⟨fun p q => ⟨osub p.x q.x, osub p.y q.y⟩⟩

instance : Neg pointF := ⟨fun p => ⟨oneg p.x, oneg p.y⟩⟩

instance : HMul pointF ℝ pointF := ⟨fun p f => ⟨omul p.x (some f), omul p.y (some f)⟩⟩

instance : HMul ℝ pointF pointF := ⟨fun f p => ⟨omul p.x (some f), omul p.y (some f)⟩⟩

instance : HDiv pointF ℝ pointF := ⟨fun p f => ⟨odiv p.x (some f), odiv p.y (some f)⟩⟩

/-- Multiplication of a `pointF` by a possibly-NaN scalar. -/
def mulO (p : pointF) (f : Option ℝ) : pointF := ⟨omul p.x f, omul p.y f⟩

/-- Division of a `pointF` by a possibly-NaN scalar. -/
def divO (p : pointF) (f : Option ℝ) : pointF := ⟨odiv p.x f, odiv p.y f⟩

/-- `point::sqmag` on IEEE scalars. -/
def sqmag (p : pointF) : Option ℝ := oadd (omul p.x p.x) (omul p.y p.y)

/-- `point::mag` on IEEE scalars. -/
def mag (p : pointF) : Option ℝ := osqrt p.sqmag

/-- `point::norm` on IEEE scalars: `(*this) / mag()`; on the zero vector
this is `0.0f/0.0f`, NaN. -/
def norm (p : pointF) : pointF := p.divO p.mag

end pointF

/-- `System::probeGravity` on IEEE scalars. -/
def System.probeGravityF (s : System) (pos : pointF) : pointF :=
  let out := s.planets.foldl
    (fun out p =>
      let r := pos - p.pos.toF
      out - (r.norm.divO r.sqmag) * p.mass)
    (⟨some 0, some 0⟩ : pointF)
  out * gravitational_constant

/-- `System::probeAngularPotentialGradient` on IEEE scalars. -/
def System.probeAngularPotentialGradientF (s : System) (pos : pointF) : pointF :=
  s.planets.foldl
    (fun out p =>
      let r := pos - p.pos.toF
      let planet_contribution := odiv (some (p.mass * (if p.ccw then (1 : ℝ) else -1))) r.sqmag
      out + (pointF.mk r.y (oneg r.x)).mulO planet_contribution)
    (⟨some 0, some 0⟩ : pointF)

/-- The `gradient_func` lambda of `gliderStep` on IEEE scalars. -/
def gradient_funcF (angular_potential_factor : ℝ) (system : System) (ccw : Bool)
    (pos : pointF) : pointF :=
  let gravity_potential_gradient := -system.probeGravityF pos
  let angular_gradient := angular_potential_factor * system.probeAngularPotentialGradientF pos
  let total_gradient := gravity_potential_gradient - angular_gradient
  let equipot_motion := (pointF.mk (oneg total_gradient.y) total_gradient.x).norm
  equipot_motion * (if ccw then (1 : ℝ) else -1)

/-- `gliderStep` on IEEE scalars; the C++ integrator template instantiates
at the IEEE point type unchanged. -/
def gliderStepF (start_pos : pointF) (angular_potential_factor : ℝ) (system : System)
    (ccw : Bool) : pointF :=
  integrator.rungeKutta4 start_pos (gradient_funcF angular_potential_factor system ccw) 10

/-- The stepping loop of `generateGliderTrajectory` on IEEE scalars; note
that with a NaN squared displacement both comparisons are false and the
loop does not stop. -/
def genTrajAuxF (system : System) (spiral_factor : ℝ) (ccw : Bool) :
    pointF → Nat → List pointF
  | _, 0 => []
  | pos, fuel + 1 =>
    let new_pos := gliderStepF pos spiral_factor system ccw
    let sq_last_dist := (new_pos - pos).sqmag
    if olt (some sq_upper_dist_limit) sq_last_dist ∨
        olt sq_last_dist (some sq_lower_dist_limit) then []
    else new_pos :: genTrajAuxF system spiral_factor ccw new_pos fuel

/-- `generateGliderTrajectory` on IEEE scalars. -/
def generateGliderTrajectoryF (pos : pointF) (system : System) (spiral_factor : ℝ)
    (max_steps : Nat) (ccw : Bool) : List pointF :=
  pos :: genTrajAuxF system spiral_factor ccw pos max_steps

/-- A concrete one-planet system: one planet of mass 1 at the origin. -/
def originSystem : System := ⟨[⟨⟨0, 0⟩, 1, true⟩]⟩

/-- A concrete start point at distance 12 from the planet of
`originSystem`. -/
def start12 : point := ⟨12, 0⟩

/-- The sign factor `(ccw ? 1 : -1)` used by `gradient_func`. -/
def sgn (ccw : Bool) : ℝ := if ccw then 1 else -1

/-- A concrete two-planet system for witnesses. -/
def demoSystem : System := ⟨[⟨⟨0, 0⟩, 1, true⟩, ⟨⟨100, 0⟩, 1, false⟩]⟩

/-- Concrete bounds for witnesses. -/
def demoBounds : point × point := (⟨-1000, -1000⟩, ⟨1000, 1000⟩)

end

/-!
Basic lemmas about the embedded `point` arithmetic.
-/

namespace point

@[ext] theorem ext (p q : point) (hx : p.x = q.x) (hy : p.y = q.y) : p = q := by
  cases p; cases q; simp_all

@[simp] theorem add_x (p q : point) : (p + q).x = p.x + q.x := rfl

@[simp] theorem add_y (p q : point) : (p + q).y = p.y + q.y := rfl

@[simp] theorem sub_x (p q : point) : (p - q).x = p.x - q.x := rfl

@[simp] theorem sub_y (p q : point) : (p - q).y = p.y - q.y := rfl

@[simp] theorem neg_x (p : point) : (-p).x = -p.x := rfl

@[simp] theorem neg_y (p : point) : (-p).y = -p.y := rfl

@[simp] theorem mul_right_x (p : point) (f : ℝ) : (p * f).x = p.x * f := rfl

@[simp] theorem mul_right_y (p : point) (f : ℝ) : (p * f).y = p.y * f := rfl

@[simp] theorem mul_left_x (f : ℝ) (p : point) : (f * p).x = p.x * f := rfl

@[simp] theorem mul_left_y (f : ℝ) (p : point) : (f * p).y = p.y * f := rfl

@[simp] theorem div_x (p : point) (f : ℝ) : (p / f).x = p.x / f := rfl

@[simp] theorem div_y (p : point) (f : ℝ) : (p / f).y = p.y / f := rfl

@[simp] theorem mk_x (a b : ℝ) : (point.mk a b).x = a := rfl

@[simp] theorem mk_y (a b : ℝ) : (point.mk a b).y = b := rfl

theorem sqmag_nonneg (p : point) : 0 ≤ p.sqmag := by
  have hx := mul_self_nonneg p.x
  have hy := mul_self_nonneg p.y
  unfold sqmag
  linarith

theorem mag_nonneg (p : point) : 0 ≤ p.mag := Real.sqrt_nonneg _

theorem mag_pos (p : point) (h : p.sqmag ≠ 0) : 0 < p.mag := by
  have h0 : 0 < p.sqmag := lt_of_le_of_ne (sqmag_nonneg p) (Ne.symm h)
  exact Real.sqrt_pos.mpr h0

theorem mag_sq (p : point) : p.mag * p.mag = p.sqmag :=
  Real.mul_self_sqrt (sqmag_nonneg p)

theorem norm_x (p : point) : p.norm.x = p.x / p.mag := rfl

theorem norm_y (p : point) : p.norm.y = p.y / p.mag := rfl

/-- Normalizing is invariant under scaling by a positive factor. -/
theorem norm_smul_pos (c : ℝ) (hc : 0 < c) (v : point) :
    (point.mk (c * v.x) (c * v.y)).norm = v.norm := by
  have hsq : (point.mk (c * v.x) (c * v.y)).sqmag = c ^ 2 * v.sqmag := by
    unfold sqmag; simp; ring
  have hmag : (point.mk (c * v.x) (c * v.y)).mag = c * v.mag := by
    unfold mag; rw [hsq, Real.sqrt_mul (sq_nonneg c), Real.sqrt_sq hc.le]
  unfold norm
  ext <;> simp [hmag] <;> exact mul_div_mul_left _ _ (ne_of_gt hc)

/-- Components of a vector are bounded by its magnitude. -/
theorem abs_x_le_mag (p : point) : |p.x| ≤ p.mag := by
  have h : |p.x| = Real.sqrt (p.x * p.x) := by
    rw [← Real.sqrt_mul_self (abs_nonneg p.x), abs_mul_abs_self]
  rw [h]
  apply Real.sqrt_le_sqrt
  have := mul_self_nonneg p.y
  unfold point.sqmag
  linarith

theorem abs_y_le_mag (p : point) : |p.y| ≤ p.mag := by
  have h : |p.y| = Real.sqrt (p.y * p.y) := by
    rw [← Real.sqrt_mul_self (abs_nonneg p.y), abs_mul_abs_self]
  rw [h]
  apply Real.sqrt_le_sqrt
  have := mul_self_nonneg p.x
  unfold point.sqmag
  linarith

end point

/-!
Shape lemmas for the trajectory generator.
-/

theorem genTrajAux_length_le (system : System) (spiral_factor : ℝ) (ccw : Bool) :
    ∀ (fuel : ℕ) (pos : point),
      (genTrajAux system spiral_factor ccw pos fuel).length ≤ fuel := by
  intro fuel
  induction fuel with
  | zero => intro pos; simp [genTrajAux]
  | succ n ih =>
    intro pos
    rw [genTrajAux]
    split
    · simp
    · simpa using Nat.succ_le_succ (ih _)

/-- C10: for every start point, field, spiral factor and maximum step
count (including zero), `generateGliderTrajectory` returns a non-empty
sequence whose first element is exactly the given start point. -/
theorem generateGliderTrajectory_starts_at_start (pos : point) (system : System)
    (spiral_factor : ℝ) (max_steps : ℕ) (ccw : Bool) :
    generateGliderTrajectory pos system spiral_factor max_steps ccw ≠ [] ∧
      (generateGliderTrajectory pos system spiral_factor max_steps ccw).head? = some pos := by
  constructor
  · simp [generateGliderTrajectory]
  · simp [generateGliderTrajectory]

/-- C3 (amended): a trajectory generated with `maxSteps = N` contains at
most `N + 1` points: the start point plus at most `N` generated steps. -/
theorem generateGliderTrajectory_length_le (pos : point) (system : System)
    (spiral_factor : ℝ) (max_steps : ℕ) (ccw : Bool) :
    (generateGliderTrajectory pos system spiral_factor max_steps ccw).length ≤ max_steps + 1 := by
  have h := genTrajAux_length_le system spiral_factor ccw max_steps pos
  simp only [generateGliderTrajectory, List.length_cons]
  omega

/-!
The IEEE model: with zero planets the zero total gradient is normalized,
`0.0f/0.0f` is NaN, and the stop conditions never fire.
-/

@[simp] theorem oadd_some (a b : ℝ) : oadd (some a) (some b) = some (a + b) := rfl

@[simp] theorem oadd_none_left (b : Option ℝ) : oadd none b = none := by cases b <;> rfl

@[simp] theorem oadd_none_right (a : Option ℝ) : oadd a none = none := by cases a <;> rfl

@[simp] theorem osub_some (a b : ℝ) : osub (some a) (some b) = some (a - b) := rfl

@[simp] theorem osub_none_left (b : Option ℝ) : osub none b = none := by cases b <;> rfl

@[simp] theorem osub_none_right (a : Option ℝ) : osub a none = none := by cases a <;> rfl

@[simp] theorem omul_some (a b : ℝ) : omul (some a) (some b) = some (a * b) := rfl

@[simp] theorem omul_none_left (b : Option ℝ) : omul none b = none := by cases b <;> rfl

@[simp] theorem omul_none_right (a : Option ℝ) : omul a none = none := by cases a <;> rfl

@[simp] theorem oneg_some (a : ℝ) : oneg (some a) = some (-a) := rfl

@[simp] theorem oneg_none : oneg none = none := rfl

@[simp] theorem odiv_some (a b : ℝ) : odiv (some a) (some b) = if b = 0 then none else some (a / b) := rfl

@[simp] theorem odiv_none_left (b : Option ℝ) : odiv none b = none := by cases b <;> rfl

@[simp] theorem odiv_none_right (a : Option ℝ) : odiv a none = none := by cases a <;> rfl

@[simp] theorem osqrt_some (a : ℝ) : osqrt (some a) = if a < 0 then none else some (Real.sqrt a) := rfl

@[simp] theorem osqrt_none : osqrt none = none := rfl

@[simp] theorem olt_none_left (b : Option ℝ) : olt none b = False := by cases b <;> rfl

@[simp] theorem olt_none_right (a : Option ℝ) : olt a none = False := by cases a <;> rfl

@[simp] theorem olt_some (a b : ℝ) : olt (some a) (some b) = (a < b) := rfl

namespace pointF

@[simp] theorem fadd_x (p q : pointF) : (p + q).x = oadd p.x q.x := rfl

@[simp] theorem fadd_y (p q : pointF) : (p + q).y = oadd p.y q.y := rfl

@[simp] theorem fsub_x (p q : pointF) : (p - q).x = osub p.x q.x := rfl

@[simp] theorem fsub_y (p q : pointF) : (p - q).y = osub p.y q.y := rfl

@[simp] theorem fneg_x (p : pointF) : (-p).x = oneg p.x := rfl

@[simp] theorem fneg_y (p : pointF) : (-p).y = oneg p.y := rfl

@[simp] theorem fmul_right_x (p : pointF) (f : ℝ) : (p * f).x = omul p.x (some f) := rfl

@[simp] theorem fmul_right_y (p : pointF) (f : ℝ) : (p * f).y = omul p.y (some f) := rfl

@[simp] theorem fmul_left_x (f : ℝ) (p : pointF) : (f * p).x = omul p.x (some f) := rfl

@[simp] theorem fmul_left_y (f : ℝ) (p : pointF) : (f * p).y = omul p.y (some f) := rfl

@[simp] theorem fdiv_x (p : pointF) (f : ℝ) : (p / f).x = odiv p.x (some f) := rfl

@[simp] theorem fdiv_y (p : pointF) (f : ℝ) : (p / f).y = odiv p.y (some f) := rfl

@[simp] theorem fmk_x (a b : Option ℝ) : (pointF.mk a b).x = a := rfl

@[simp] theorem fmk_y (a b : Option ℝ) : (pointF.mk a b).y = b := rfl

@[ext] theorem extF (p q : pointF) (hx : p.x = q.x) (hy : p.y = q.y) : p = q := by
  cases p; cases q; simp_all

end pointF

theorem probeGravityF_nil (pos : pointF) :
    (System.mk []).probeGravityF pos = ⟨some 0, some 0⟩ := by
  ext <;> simp [System.probeGravityF, gravitational_constant]

theorem probeAngularPotentialGradientF_nil (pos : pointF) :
    (System.mk []).probeAngularPotentialGradientF pos = ⟨some 0, some 0⟩ := by
  ext <;> simp [System.probeAngularPotentialGradientF]

theorem gradient_funcF_nil (angular_potential_factor : ℝ) (ccw : Bool) (pos : pointF) :
    gradient_funcF angular_potential_factor (System.mk []) ccw pos = ⟨none, none⟩ := by
  ext <;> simp [gradient_funcF, probeGravityF_nil, probeAngularPotentialGradientF_nil,
    pointF.norm, pointF.divO, pointF.mag, pointF.sqmag]

theorem gliderStepF_nil (pos : pointF) (angular_potential_factor : ℝ) (ccw : Bool) :
    gliderStepF pos angular_potential_factor (System.mk []) ccw = ⟨none, none⟩ := by
  ext <;> simp [gliderStepF, integrator.rungeKutta4, gradient_funcF_nil]

theorem genTrajAuxF_nil_length (spiral_factor : ℝ) (ccw : Bool) :
    ∀ (fuel : ℕ) (pos : pointF),
      (genTrajAuxF (System.mk []) spiral_factor ccw pos fuel).length = fuel := by
  intro fuel
  induction fuel with
  | zero => intro pos; simp [genTrajAuxF]
  | succ n ih =>
    intro pos
    rw [genTrajAuxF]
    simp only [gliderStepF_nil]
    rw [if_neg]
    · simp [ih]
    · simp [pointF.sqmag]

/-- C8: called on a field with zero planets, the generator does not
return a single-point trajectory.  In IEEE terms the zero total gradient
is normalized, `0.0f/0.0f` gives NaN, NaN propagates through every
further step, and since comparisons with NaN are false the stop
conditions never fire: the returned trajectory has `max_steps + 1`
points (the start point followed by `max_steps` NaN points). -/
theorem generateGliderTrajectoryF_no_planets_length (pos : pointF) (spiral_factor : ℝ)
    (max_steps : ℕ) (ccw : Bool) :
    (generateGliderTrajectoryF pos (System.mk []) spiral_factor max_steps ccw).length
      = max_steps + 1 := by
  simp [generateGliderTrajectoryF, genTrajAuxF_nil_length]

/-- C9: the explicit Euler, midpoint and Runge-Kutta-4 steppers compute
exactly the spec formulas `start + h·f(start)`,
`start + h·f(start + h/2·f(start))` and the standard four-stage
`(k1 + 2k2 + 2k3 + k4)/6` combination. -/
theorem integrator_schemes_match_spec (start : point) (f : point → point) (h : ℝ) :
    integrator.explicitEuler start f h = start + h * f start ∧
      integrator.midpoint start f h = start + h * f (start + (h / 2) * f start) ∧
      integrator.rungeKutta4 start f h =
        (let k1 := h * f start
         let k2 := h * f (start + k1 / (2 : ℝ))
         let k3 := h * f (start + k2 / (2 : ℝ))
         let k4 := h * f (start + k3)
         start + (k1 + (2 : ℝ) * k2 + (2 : ℝ) * k3 + k4) / (6 : ℝ)) := by
  refine ⟨rfl, ?_, rfl⟩
  have harg : start + (h * f start) / (2 : ℝ) = start + (h / 2) * f start := by
    ext <;> simp <;> ring
  show start + h * f (start + (h * f start) / (2 : ℝ)) =
      start + h * f (start + (h / 2) * f start)
  rw [harg]

/-!
Scoring: canonical form of one loop iteration, and decomposition of the
final score into switch bonus and penalty.
-/

theorem scoreStep_out (system : System) (b : point × point) (prev cur : point)
    (st : ScoreState) (hout : outsideBounds b cur) :
    scoreStep system b prev cur st = { st with penalty := st.penalty + 3 } := by
  unfold scoreStep
  rw [if_pos hout]

theorem scoreStep_in_eq (system : System) (b : point × point) (prev cur : point)
    (st : ScoreState) (hin : ¬ outsideBounds b cur) :
    scoreStep system b prev cur st =
      (let nc := (scanClosest system cur).1
       let committed := nc ≠ st.current_closest_planet ∧
         ((system.planetAt nc).pos - cur).sqmag * 1.2 <
           ((system.planetAt st.current_closest_planet).pos - cur).sqmag
       let cur2 := if committed then nc else st.current_closest_planet
       let sw2 := if committed then st.planet_switches + 1 else st.planet_switches
       let pen2 := if ((system.planetAt cur2).pos - cur).sqmag < 100 then
           st.penalty + 500 else st.penalty
       ScoreState.mk (st.path_length + (cur - prev).mag) sw2 pen2 cur2) := by
  unfold scoreStep
  rw [if_neg hin]
  dsimp only
  split_ifs <;> simp_all

theorem scoreLoop_decomp (system : System) (b : point × point) :
    ∀ (l : List point) (prev : point) (st : ScoreState),
      (scoreLoop system b prev l st).planet_switches =
          st.planet_switches + switchCountAux system b prev l st.current_closest_planet ∧
        (scoreLoop system b prev l st).penalty =
          st.penalty + penaltyAux system b prev l st.current_closest_planet := by
  intro l
  induction l with
  | nil => intro prev st; simp [scoreLoop, switchCountAux, penaltyAux]
  | cons p rest ih =>
    intro prev st
    rw [scoreLoop, switchCountAux, penaltyAux]
    by_cases hout : outsideBounds b p
    · rw [scoreStep_out system b prev p st hout, if_pos hout, if_pos hout]
      have h := ih p { st with penalty := st.penalty + 3 }
      refine ⟨h.1, ?_⟩
      rw [h.2]
      dsimp only
      ring
    · rw [scoreStep_in_eq system b prev p st hout]
      rw [if_neg hout, if_neg hout]
      dsimp only
      by_cases hc : (scanClosest system p).1 ≠ st.current_closest_planet ∧
          ((system.planetAt (scanClosest system p).1).pos - p).sqmag * 1.2 <
            ((system.planetAt st.current_closest_planet).pos - p).sqmag
      · simp only [if_pos hc]
        by_cases hcrash :
            ((system.planetAt (scanClosest system p).1).pos - p).sqmag < 100
        · simp only [if_pos hcrash]
          have h := ih p (ScoreState.mk (st.path_length + (p - prev).mag)
            (st.planet_switches + 1) (st.penalty + 500) (scanClosest system p).1)
          refine ⟨?_, ?_⟩
          · rw [h.1]; dsimp only; omega
          · rw [h.2]; dsimp only; ring
        · simp only [if_neg hcrash]
          have h := ih p (ScoreState.mk (st.path_length + (p - prev).mag)
            (st.planet_switches + 1) st.penalty (scanClosest system p).1)
          refine ⟨?_, ?_⟩
          · rw [h.1]; dsimp only; omega
          · rw [h.2]; dsimp only; ring
      · simp only [if_neg hc]
        by_cases hcrash :
            ((system.planetAt st.current_closest_planet).pos - p).sqmag < 100
        · simp only [if_pos hcrash]
          have h := ih p (ScoreState.mk (st.path_length + (p - prev).mag)
            st.planet_switches (st.penalty + 500) st.current_closest_planet)
          refine ⟨?_, ?_⟩
          · rw [h.1]
          · rw [h.2]; dsimp only; ring
        · simp only [if_neg hcrash]
          have h := ih p (ScoreState.mk (st.path_length + (p - prev).mag)
            st.planet_switches st.penalty st.current_closest_planet)
          refine ⟨?_, ?_⟩
          · rw [h.1]
          · rw [h.2]; dsimp only; ring

theorem scorePath_decomp (system : System) (b : point × point) (path : List point) :
    scorePath system b path =
      (switchCount system b path : ℝ) * 100 - totalPenalty system b path := by
  cases path with
  | nil => simp [scorePath, switchCount, totalPenalty]
  | cons p rest =>
    have h := scoreLoop_decomp system b rest p ⟨0, 0, 0, 0⟩
    simp only [scorePath, switchCount, totalPenalty]
    rw [h.1, h.2]
    push_cast
    ring

/-- C4: `scorePath` returns the committed switch count times 100 minus
the accumulated penalty; the accumulated path length is multiplied by
zero in `0 * path_length + switches * 100 - penalty` and does not
influence the final score. -/
theorem scorePath_switch_bonus_minus_penalty (system : System) (b : point × point)
    (path : List point) :
    scorePath system b path =
      (switchCount system b path : ℝ) * 100 - totalPenalty system b path :=
  scorePath_decomp system b path

/-!
The nearest-planet loop really computes a planet at minimal squared
distance (as long as some planet is closer than `FLT_MAX`).
-/

theorem scanClosestAux_spec (pos : point) :
    ∀ (l : List Planet) (n : ℕ) (acc : ℕ × ℝ),
      (scanClosestAux pos l n acc).2 ≤ acc.2 ∧
        (∀ pl ∈ l, (scanClosestAux pos l n acc).2 ≤ (pl.pos - pos).sqmag) ∧
        (scanClosestAux pos l n acc = acc ∨
          ∃ k, ∃ hk : k < l.length,
            (scanClosestAux pos l n acc).1 = n + k ∧
              (scanClosestAux pos l n acc).2 = ((l.get ⟨k, hk⟩).pos - pos).sqmag) := by
  intro l
  induction l with
  | nil =>
    intro n acc
    refine ⟨le_refl _, ?_, Or.inl rfl⟩
    intro pl hpl
    cases hpl
  | cons p rest ih =>
    intro n acc
    rw [scanClosestAux]
    by_cases hlt : (p.pos - pos).sqmag < acc.2
    · rw [if_pos hlt]
      obtain ⟨h1, h2, h3⟩ := ih (n + 1) (n, (p.pos - pos).sqmag)
      refine ⟨le_of_lt (lt_of_le_of_lt h1 hlt), ?_, ?_⟩
      · intro pl hpl
        rcases List.mem_cons.mp hpl with heq | hmem
        · subst heq; exact h1
        · exact h2 pl hmem
      · rcases h3 with heq | ⟨k, hk, hidx, hval⟩
        · refine Or.inr ⟨0, ?_, ?_, ?_⟩
          · simp
          · rw [heq]; simp
          · rw [heq]; simp
        · refine Or.inr ⟨k + 1, ?_, ?_, ?_⟩
          · simpa using Nat.succ_lt_succ hk
          · rw [hidx]; omega
          · rw [hval]; rfl
    · rw [if_neg hlt]
      obtain ⟨h1, h2, h3⟩ := ih (n + 1) acc
      refine ⟨h1, ?_, ?_⟩
      · intro pl hpl
        rcases List.mem_cons.mp hpl with heq | hmem
        · subst heq; exact le_trans h1 (not_lt.mp hlt)
        · exact h2 pl hmem
      · rcases h3 with heq | ⟨k, hk, hidx, hval⟩
        · exact Or.inl heq
        · refine Or.inr ⟨k + 1, ?_, ?_, ?_⟩
          · simpa using Nat.succ_lt_succ hk
          · rw [hidx]; omega
          · rw [hval]; rfl

theorem scanClosest_min (system : System) (pos : point)
    (hex : ∃ j, ∃ hj : j < system.planets.length,
      ((system.planets.get ⟨j, hj⟩).pos - pos).sqmag < flt_max) :
    (scanClosest system pos).1 < system.planets.length ∧
      ∀ pl ∈ system.planets,
        ((system.planetAt (scanClosest system pos).1).pos - pos).sqmag ≤
          (pl.pos - pos).sqmag := by
  obtain ⟨j, hj, hjlt⟩ := hex
  obtain ⟨h1, h2, h3⟩ := scanClosestAux_spec pos system.planets 0 (0, flt_max)
  have hlt : (scanClosestAux pos system.planets 0 (0, flt_max)).2 < flt_max :=
    lt_of_le_of_lt (h2 _ (List.get_mem system.planets j hj)) hjlt
  rcases h3 with heq | ⟨k, hk, hidx, hval⟩
  · rw [heq] at hlt
    exact absurd hlt (lt_irrefl _)
  · have hidx0 : (scanClosest system pos).1 = k := by
      unfold scanClosest; rw [hidx]; omega
    constructor
    · rw [hidx0]; exact hk
    · intro pl hpl
      have hAt : system.planetAt (scanClosest system pos).1 = system.planets.get ⟨k, hk⟩ := by
        unfold System.planetAt
        rw [hidx0]
        rw [List.getD_eq_getElem _ _ hk]
        simp [List.get_eq_getElem]
      rw [hAt, ← hval]
      exact h2 pl hpl

/-- C5: at every in-bounds path point the nearest planet is recomputed —
`scanClosest` attains the minimal squared distance over all planets
(provided some planet is nearer than the `FLT_MAX` the scan starts from) —
and the tracked planet is changed, incrementing the switch counter that
`scorePath_decomp` turns into +100 of score, exactly when the recomputed
nearest index differs from the tracked one and beats it by the 20%
hysteresis margin (`r_new.sqmag * 1.2f < r_current.sqmag`); otherwise the
tracked planet and the switch count are unchanged. -/
theorem scoreStep_recompute_and_hysteresis (system : System) (b : point × point)
    (prev cur : point) (st : ScoreState) (hin : ¬ outsideBounds b cur)
    (hex : ∃ j, ∃ hj : j < system.planets.length,
      ((system.planets.get ⟨j, hj⟩).pos - cur).sqmag < flt_max) :
    (∀ pl ∈ system.planets,
      ((system.planetAt (scanClosest system cur).1).pos - cur).sqmag ≤
        (pl.pos - cur).sqmag) ∧
      (((scanClosest system cur).1 ≠ st.current_closest_planet ∧
          ((system.planetAt (scanClosest system cur).1).pos - cur).sqmag * 1.2 <
            ((system.planetAt st.current_closest_planet).pos - cur).sqmag) →
        (scoreStep system b prev cur st).current_closest_planet = (scanClosest system cur).1 ∧
          (scoreStep system b prev cur st).planet_switches = st.planet_switches + 1) ∧
      (¬ ((scanClosest system cur).1 ≠ st.current_closest_planet ∧
          ((system.planetAt (scanClosest system cur).1).pos - cur).sqmag * 1.2 <
            ((system.planetAt st.current_closest_planet).pos - cur).sqmag) →
        (scoreStep system b prev cur st).current_closest_planet = st.current_closest_planet ∧
          (scoreStep system b prev cur st).planet_switches = st.planet_switches) := by
  refine ⟨(scanClosest_min system cur hex).2, ?_, ?_⟩
  · intro hcommit
    rw [scoreStep_in_eq system b prev cur st hin]
    dsimp only
    simp only [if_pos hcommit]
    exact ⟨trivial, trivial⟩
  · intro hcommit
    rw [scoreStep_in_eq system b prev cur st hin]
    dsimp only
    simp only [if_neg hcommit]
    exact ⟨trivial, trivial⟩

/-- Witness for the hysteresis theorem: in `demoSystem` the point
`(90, 0)` is nearest to planet 1 (distance² 100 against 8100), the 20%
margin holds (120 < 8100), and the step commits the switch. -/
theorem scoreStep_recompute_and_hysteresis_witness :
    (¬ outsideBounds demoBounds ⟨90, 0⟩) ∧
      (∃ j, ∃ hj : j < demoSystem.planets.length,
        ((demoSystem.planets.get ⟨j, hj⟩).pos - ⟨90, 0⟩).sqmag < flt_max) ∧
      (scoreStep demoSystem demoBounds ⟨89, 0⟩ ⟨90, 0⟩ ⟨0, 0, 0, 0⟩).current_closest_planet =
          (scanClosest demoSystem ⟨90, 0⟩).1 ∧
      (scoreStep demoSystem demoBounds ⟨89, 0⟩ ⟨90, 0⟩ ⟨0, 0, 0, 0⟩).planet_switches = 1 := by
  have hin : ¬ outsideBounds demoBounds (⟨90, 0⟩ : point) := by
    norm_num [outsideBounds, demoBounds]
  have hex : ∃ j, ∃ hj : j < demoSystem.planets.length,
      ((demoSystem.planets.get ⟨j, hj⟩).pos - (⟨90, 0⟩ : point)).sqmag < flt_max := by
    refine ⟨1, by norm_num [demoSystem], ?_⟩
    norm_num [demoSystem, point.sqmag, flt_max]
  have hnc : (scanClosest demoSystem ⟨90, 0⟩).1 = 1 := by
    norm_num [scanClosest, scanClosestAux, demoSystem, point.sqmag, flt_max]
  have hcommit : (scanClosest demoSystem ⟨90, 0⟩).1 ≠
        (⟨0, 0, 0, 0⟩ : ScoreState).current_closest_planet ∧
      ((demoSystem.planetAt (scanClosest demoSystem ⟨90, 0⟩).1).pos -
          (⟨90, 0⟩ : point)).sqmag * 1.2 <
        ((demoSystem.planetAt (⟨0, 0, 0, 0⟩ : ScoreState).current_closest_planet).pos -
          (⟨90, 0⟩ : point)).sqmag := by
    rw [hnc]
    norm_num [System.planetAt, demoSystem, point.sqmag]
  have h := (scoreStep_recompute_and_hysteresis demoSystem demoBounds ⟨89, 0⟩ ⟨90, 0⟩
      ⟨0, 0, 0, 0⟩ hin hex).2.1 hcommit
  exact ⟨hin, hex, h.1, by simpa using h.2⟩

/-!
The gravity probe computes the spec formula.
-/

theorem probeGravity_foldl_eq (pos : point) :
    ∀ (l : List Planet) (z : point),
      l.foldl (fun out p => out - (pos - p.pos).norm / (pos - p.pos).sqmag * p.mass) z =
        z + l.foldr
          (fun pl acc => -(pos - pl.pos).norm / (pos - pl.pos).sqmag * pl.mass + acc)
          (⟨0, 0⟩ : point) := by
  intro l
  induction l with
  | nil => intro z; ext <;> simp
  | cons p rest ih =>
    intro z
    rw [List.foldl_cons, List.foldr_cons, ih]
    ext <;> simp [point.norm] <;> ring

/-- C6: for every probe point that does not coincide with any planet
position, `System::probeGravity` returns the spec formula `specGravity`:
`G = 2000` times the sum over planets of
`-normalize(p - planet.pos) / |p - planet.pos|² * planet.mass`. -/
theorem probeGravity_matches_spec (system : System) (p : point)
    (h : ∀ pl ∈ system.planets, p ≠ pl.pos) :
    system.probeGravity p = specGravity system p := by
  unfold System.probeGravity specGravity gravitational_constant
  rw [probeGravity_foldl_eq]
  ext <;> simp

/-- Witness for the gravity-probe theorem at the concrete system
`demoSystem` and probe point `(90, 0)`, which coincides with no planet. -/
theorem probeGravity_matches_spec_witness :
    (∀ pl ∈ demoSystem.planets, (⟨90, 0⟩ : point) ≠ pl.pos) ∧
      demoSystem.probeGravity ⟨90, 0⟩ = specGravity demoSystem ⟨90, 0⟩ := by
  have h : ∀ pl ∈ demoSystem.planets, (⟨90, 0⟩ : point) ≠ pl.pos := by
    intro pl hpl
    have hcases : pl = (⟨⟨0, 0⟩, 1, true⟩ : Planet) ∨ pl = (⟨⟨100, 0⟩, 1, false⟩ : Planet) := by
      simpa [demoSystem] using hpl
    rcases hcases with hc | hc <;> subst hc <;> intro hEq <;>
      simpa [point.mk.injEq] using congrArg point.x hEq
  exact ⟨h, probeGravity_matches_spec demoSystem ⟨90, 0⟩ h⟩

/-!
With a single planet no switch can ever be committed, every score is at
most 0, and 0 is below the sentinel `FLT_MIN`: the search never accepts a
candidate.
-/

theorem scanClosest_singleton (pl : Planet) (p : point) :
    (scanClosest (System.mk [pl]) p).1 = 0 := by
  unfold scanClosest
  rw [scanClosestAux, scanClosestAux]
  split_ifs <;> rfl

theorem switchCountAux_singleton (pl : Planet) (b : point × point) :
    ∀ (l : List point) (prev : point),
      switchCountAux (System.mk [pl]) b prev l 0 = 0 := by
  intro l
  induction l with
  | nil => intro prev; rfl
  | cons p rest ih =>
    intro prev
    rw [switchCountAux]
    by_cases hout : outsideBounds b p
    · rw [if_pos hout]
      exact ih p
    · rw [if_neg hout, if_neg]
      · exact ih p
      · simp [scanClosest_singleton]

theorem penaltyAux_nonneg (system : System) (b : point × point) :
    ∀ (l : List point) (prev : point) (cur : ℕ),
      0 ≤ penaltyAux system b prev l cur := by
  intro l
  induction l with
  | nil => intro prev cur; simp [penaltyAux]
  | cons p rest ih =>
    intro prev cur
    rw [penaltyAux]
    by_cases hout : outsideBounds b p
    · rw [if_pos hout]
      have := ih p cur
      linarith
    · rw [if_neg hout]
      dsimp only
      split_ifs with h1 h2 h2
      · have := ih p (scanClosest system p).1; linarith
      · have := ih p (scanClosest system p).1; linarith
      · have := ih p cur; linarith
      · have := ih p cur; linarith

theorem scorePath_singleton_nonpos (pl : Planet) (b : point × point)
    (path : List point) : scorePath (System.mk [pl]) b path ≤ 0 := by
  rw [scorePath_decomp]
  have hsw : switchCount (System.mk [pl]) b path = 0 := by
    cases path with
    | nil => rfl
    | cons p rest => exact switchCountAux_singleton pl b rest p
  have hpen : 0 ≤ totalPenalty (System.mk [pl]) b path := by
    cases path with
    | nil => simp [totalPenalty]
    | cons p rest => exact penaltyAux_nonneg _ b rest p 0
  rw [hsw]
  push_cast
  linarith

theorem foldl_eq_init {α β : Type} (f : β → α → β) (b : β) (h : ∀ a, f b a = b) :
    ∀ l : List α, l.foldl f b = b := by
  intro l
  induction l with
  | nil => rfl
  | cons a l ih => rw [List.foldl_cons, h a]; exact ih

/-- C1 (the code bug): `candidate_score` is initialized to
`std::numeric_limits<float>::min()`, which is the smallest positive
normal `float` `2^-126`, not the lowest `float`.  On any one-planet
system every path scores at most 0 (no switch is possible and penalties
only subtract), strictly below this sentinel, so no candidate — in
particular not the first — is ever accepted and `findNicePath` returns
the default-constructed point `(0, 0)` untouched. -/
theorem findNicePath_single_planet_rejects_all (pl : Planet) (spiral_factor : ℝ)
    (max_steps : ℕ) (b : point × point) (sample : ℕ → point) (ccw : ℕ → Bool) :
    findNicePath (System.mk [pl]) spiral_factor max_steps b sample ccw = ⟨0, 0⟩ ∧
      ∀ path : List point, scorePath (System.mk [pl]) b path < flt_min := by
  have hmin : (0 : ℝ) < flt_min := by norm_num [flt_min]
  have hscore : ∀ path : List point, scorePath (System.mk [pl]) b path < flt_min := by
    intro path
    have h1 := scorePath_singleton_nonpos pl b path
    linarith
  refine ⟨?_, hscore⟩
  unfold findNicePath
  rw [foldl_eq_init]
  intro i
  dsimp only
  rw [if_neg]
  exact not_le.mpr (hscore _)

/-!
Concrete evaluation of one glider step in `originSystem` from `start12`.
With a single planet at the origin and spiral factor 0, the velocity
field is the unit tangent `(-y, x)/|q|` oriented by `ccw`.
-/

theorem sgn_cases (ccw : Bool) : sgn ccw = 1 ∨ sgn ccw = -1 := by
  cases ccw <;> simp [sgn]

theorem sgn_mul_self (ccw : Bool) : sgn ccw * sgn ccw = 1 := by
  cases ccw <;> norm_num [sgn]

theorem abs_sgn (ccw : Bool) : |sgn ccw| = 1 := by
  cases ccw <;> norm_num [sgn]

theorem gradFunc_origin (ccw : Bool) (q : point) (hq : q.sqmag ≠ 0) :
    gradient_func 0 originSystem ccw q =
      ⟨-q.y / q.mag * sgn ccw, q.x / q.mag * sgn ccw⟩ := by
  have hs : 0 < q.sqmag := lt_of_le_of_ne q.sqmag_nonneg (Ne.symm hq)
  have hm : 0 < q.mag := q.mag_pos hq
  have hc : 0 < 2000 / (q.mag * q.sqmag) := by positivity
  have hgrav : originSystem.probeGravity q =
      ⟨-(q.x / q.mag / q.sqmag) * 2000, -(q.y / q.mag / q.sqmag) * 2000⟩ := by
    ext <;>
      simp [System.probeGravity, originSystem, point.norm, point.mag, point.sqmag,
        gravitational_constant] <;> ring
  have hmageq : (⟨-q.y, q.x⟩ : point).mag = q.mag := by
    unfold point.mag point.sqmag
    simp only [point.mk_x, point.mk_y]
    congr 1
    ring
  have key : ∀ T : point,
      T = ⟨2000 / (q.mag * q.sqmag) * (⟨-q.y, q.x⟩ : point).x,
           2000 / (q.mag * q.sqmag) * (⟨-q.y, q.x⟩ : point).y⟩ →
      T.norm * (if ccw then (1 : ℝ) else -1) =
        ⟨-q.y / q.mag * sgn ccw, q.x / q.mag * sgn ccw⟩ := by
    intro T hT
    subst hT
    rw [point.norm_smul_pos _ hc]
    ext <;> simp [point.norm, hmageq, sgn]
  unfold gradient_func
  dsimp only
  apply key
  rw [hgrav]
  ext <;> simp <;> ring

theorem gliderStep_origin_expand (ccw : Bool) :
    gliderStep start12 0 originSystem ccw =
      start12 +
        ((10 : ℝ) * gradient_func 0 originSystem ccw start12 +
          (2 : ℝ) * ((10 : ℝ) * gradient_func 0 originSystem ccw
            (start12 + (10 : ℝ) * gradient_func 0 originSystem ccw start12 / (2 : ℝ))) +
          (2 : ℝ) * ((10 : ℝ) * gradient_func 0 originSystem ccw
            (start12 + (10 : ℝ) * gradient_func 0 originSystem ccw
              (start12 + (10 : ℝ) * gradient_func 0 originSystem ccw start12 / (2 : ℝ)) /
                (2 : ℝ))) +
          (10 : ℝ) * gradient_func 0 originSystem ccw
            (start12 + (10 : ℝ) * gradient_func 0 originSystem ccw
              (start12 + (10 : ℝ) * gradient_func 0 originSystem ccw
                (start12 + (10 : ℝ) * gradient_func 0 originSystem ccw start12 / (2 : ℝ)) /
                  (2 : ℝ)))) / (6 : ℝ) := rfl

set_option maxHeartbeats 1600000 in
theorem gliderStep_origin_bounds (ccw : Bool) :
    (0.005 : ℝ) ≤ (gliderStep start12 0 originSystem ccw - start12).sqmag ∧
      (gliderStep start12 0 originSystem ccw - start12).sqmag ≤ 400 ∧
      4 ≤ (gliderStep start12 0 originSystem ccw).y * sgn ccw := by
  have hσ2 := sgn_mul_self ccw
  have hQpos : (0 : ℝ) < Real.sqrt 20761 := Real.sqrt_pos.mpr (by norm_num)
  have hQgt : (144 : ℝ) < Real.sqrt 20761 := by
    rw [show (144 : ℝ) = Real.sqrt (144 ^ 2) by
      rw [Real.sqrt_sq (by norm_num : (0:ℝ) ≤ 144)]]
    exact Real.sqrt_lt_sqrt (by positivity) (by norm_num)
  -- stage 1: the field at the start point
  have h144 : start12.sqmag = 144 := by norm_num [start12, point.sqmag]
  have hmag1 : start12.mag = 12 := by
    unfold point.mag
    rw [h144, show (144 : ℝ) = 12 ^ 2 by norm_num,
      Real.sqrt_sq (by norm_num : (0:ℝ) ≤ 12)]
  have hf1 : gradient_func 0 originSystem ccw start12 = ⟨0, sgn ccw⟩ := by
    rw [gradFunc_origin ccw start12 (by rw [h144]; norm_num)]
    have hy0 : start12.y = 0 := rfl
    have hx12 : start12.x = 12 := rfl
    ext
    · simp [hy0, hmag1]
    · rw [point.mk_x, point.mk_y, hx12, hmag1]
      norm_num
  -- stage 2
  have harg2 : start12 + (10 : ℝ) * gradient_func 0 originSystem ccw start12 / (2 : ℝ) =
      ⟨12, sgn ccw * 5⟩ := by
    rw [hf1]; ext <;> simp [start12] <;> ring
  have h169 : (⟨12, sgn ccw * 5⟩ : point).sqmag = 169 := by
    simp [point.sqmag]; nlinarith [hσ2]
  have hmag2 : (⟨12, sgn ccw * 5⟩ : point).mag = 13 := by
    unfold point.mag
    rw [h169, show (169 : ℝ) = 13 ^ 2 by norm_num,
      Real.sqrt_sq (by norm_num : (0:ℝ) ≤ 13)]
  have hf2 : gradient_func 0 originSystem ccw ⟨12, sgn ccw * 5⟩ =
      ⟨-5 / 13, 12 / 13 * sgn ccw⟩ := by
    rw [gradFunc_origin ccw _ (by rw [h169]; norm_num)]
    ext
    · simp [hmag2]
      linear_combination ((-5 : ℝ) / 13) * hσ2
    · simp [hmag2]
  -- stage 3
  have harg3 : start12 + (10 : ℝ) * gradient_func 0 originSystem ccw ⟨12, sgn ccw * 5⟩ /
      (2 : ℝ) = ⟨131 / 13, sgn ccw * (60 / 13)⟩ := by
    rw [hf2]; ext <;> simp [start12] <;> ring
  have h3s : (⟨131 / 13, sgn ccw * (60 / 13)⟩ : point).sqmag = 20761 / 169 := by
    simp [point.sqmag]; nlinarith [hσ2]
  have hmag3 : (⟨131 / 13, sgn ccw * (60 / 13)⟩ : point).mag = Real.sqrt 20761 / 13 := by
    unfold point.mag
    rw [h3s, show (20761 : ℝ) / 169 = (Real.sqrt 20761 / 13) ^ 2 by
      rw [div_pow, Real.sq_sqrt (by norm_num : (0:ℝ) ≤ 20761)]; norm_num]
    rw [Real.sqrt_sq (by positivity)]
  have hf3 : gradient_func 0 originSystem ccw ⟨131 / 13, sgn ccw * (60 / 13)⟩ =
      ⟨-60 / Real.sqrt 20761, 131 / Real.sqrt 20761 * sgn ccw⟩ := by
    rw [gradFunc_origin ccw _ (by rw [h3s]; norm_num)]
    ext
    · simp [hmag3]
      have hfld : -(sgn ccw * (60 / 13)) / (Real.sqrt 20761 / 13) * sgn ccw =
          -60 / Real.sqrt 20761 * (sgn ccw * sgn ccw) := by
        field_simp
        ring
      rw [hfld, hσ2, mul_one]
    · simp [hmag3]
      left
      have hQne : Real.sqrt 20761 ≠ 0 := ne_of_gt hQpos
      field_simp
  -- stage 4
  have harg4 : start12 + (10 : ℝ) * gradient_func 0 originSystem ccw
      ⟨131 / 13, sgn ccw * (60 / 13)⟩ =
      ⟨12 - 600 / Real.sqrt 20761, sgn ccw * (1310 / Real.sqrt 20761)⟩ := by
    rw [hf3]; ext <;> simp [start12] <;> ring
  set s4 : point := ⟨12 - 600 / Real.sqrt 20761, sgn ccw * (1310 / Real.sqrt 20761)⟩ with hs4
  have h600 : 600 / Real.sqrt 20761 < 5 := by
    rw [div_lt_iff hQpos]; nlinarith [hQgt]
  have hx4 : (7 : ℝ) < s4.x := by
    rw [hs4]; simp; linarith
  have hsq4pos : 0 < s4.sqmag := by
    unfold point.sqmag
    nlinarith [hx4, mul_self_nonneg s4.y]
  have hm4 : 0 < s4.mag := point.mag_pos s4 hsq4pos.ne'
  have hf4 : gradient_func 0 originSystem ccw s4 =
      ⟨-s4.y / s4.mag * sgn ccw, s4.x / s4.mag * sgn ccw⟩ :=
    gradFunc_origin ccw s4 hsq4pos.ne'
  -- bounds on the fourth stage direction
  have hxle : s4.x ≤ s4.mag := le_trans (le_abs_self _) (point.abs_x_le_mag s4)
  have hf4y_pos : 0 < s4.x / s4.mag := div_pos (lt_trans (by norm_num) hx4) hm4
  have hf4y_le : s4.x / s4.mag ≤ 1 := (div_le_one hm4).mpr hxle
  have hf4x_abs : |-s4.y / s4.mag * sgn ccw| ≤ 1 := by
    rw [abs_mul, abs_sgn, mul_one, abs_div, abs_neg, abs_of_pos hm4]
    exact (div_le_one hm4).mpr (point.abs_y_le_mag s4)
  -- assemble the displacement
  have hstep := gliderStep_origin_expand ccw
  rw [harg2, harg3, harg4, hf1, hf2, hf3, hf4] at hstep
  have hD : gliderStep start12 0 originSystem ccw - start12 =
      ⟨(0 * 10 + 2 * (-5 / 13 * 10) + 2 * (-60 / Real.sqrt 20761 * 10) +
          -s4.y / s4.mag * sgn ccw * 10) / 6,
        (sgn ccw * 10 + 2 * (12 / 13 * sgn ccw * 10) +
          2 * (131 / Real.sqrt 20761 * sgn ccw * 10) + s4.x / s4.mag * sgn ccw * 10) / 6⟩ := by
    rw [hstep]; ext <;> simp [start12] <;> ring
  -- scalar bounds on the displacement components
  have h1200 : 1200 / Real.sqrt 20761 < 9 := by
    rw [div_lt_iff hQpos]; nlinarith [hQgt]
  have h1200pos : 0 < 1200 / Real.sqrt 20761 := by positivity
  have h2620 : 2620 / Real.sqrt 20761 < 19 := by
    rw [div_lt_iff hQpos]; nlinarith [hQgt]
  have h2620pos : 0 < 2620 / Real.sqrt 20761 := by positivity
  have haeq := abs_le.mp hf4x_abs
  obtain ⟨hal, har⟩ := haeq
  have hbx : |(0 * 10 + 2 * (-5 / 13 * 10) + 2 * (-60 / Real.sqrt 20761 * 10) +
      -s4.y / s4.mag * sgn ccw * 10) / 6| ≤ 5 := by
    have e1 : (0 * 10 + 2 * (-5 / 13 * 10) + 2 * (-60 / Real.sqrt 20761 * 10) +
        -s4.y / s4.mag * sgn ccw * 10) =
        -(100 / 13) - 1200 / Real.sqrt 20761 + (-s4.y / s4.mag * sgn ccw) * 10 := by
      ring
    rw [abs_le, e1]
    constructor
    · rw [le_div_iff (by norm_num : (0:ℝ) < 6)]
      linarith [h1200, h1200pos]
    · rw [div_le_iff (by norm_num : (0:ℝ) < 6)]
      linarith [h1200, h1200pos]
  have heqy : (sgn ccw * 10 + 2 * (12 / 13 * sgn ccw * 10) +
      2 * (131 / Real.sqrt 20761 * sgn ccw * 10) + s4.x / s4.mag * sgn ccw * 10) / 6 * sgn ccw =
      (10 + 240 / 13 + 2620 / Real.sqrt 20761 + 10 * (s4.x / s4.mag)) / 6 := by
    linear_combination (((10 : ℝ) + 240 / 13 + 2620 / Real.sqrt 20761 +
      10 * (s4.x / s4.mag)) / 6) * hσ2
  have hby1 : 4 ≤ (sgn ccw * 10 + 2 * (12 / 13 * sgn ccw * 10) +
      2 * (131 / Real.sqrt 20761 * sgn ccw * 10) + s4.x / s4.mag * sgn ccw * 10) / 6 * sgn ccw := by
    rw [heqy]; linarith [h2620pos, hf4y_pos]
  have hby2 : (sgn ccw * 10 + 2 * (12 / 13 * sgn ccw * 10) +
      2 * (131 / Real.sqrt 20761 * sgn ccw * 10) + s4.x / s4.mag * sgn ccw * 10) / 6 * sgn ccw
      ≤ 10 := by
    rw [heqy]; linarith [h2620, hf4y_le]
  -- discharge the three goals
  have key : ∀ dx dy : ℝ, |dx| ≤ 5 → 4 ≤ dy * sgn ccw → dy * sgn ccw ≤ 10 →
      (0.005 : ℝ) ≤ (point.mk dx dy).sqmag ∧ (point.mk dx dy).sqmag ≤ 400 := by
    intro dx dy h1 h2 h3
    have hsq : (dy * sgn ccw) * (dy * sgn ccw) = dy * dy := by
      linear_combination (dy * dy) * hσ2
    obtain ⟨hdl, hdr⟩ := abs_le.mp h1
    constructor
    · show (0.005 : ℝ) ≤ dx * dx + dy * dy
      nlinarith [h2, hsq, mul_self_nonneg dx]
    · show dx * dx + dy * dy ≤ 400
      nlinarith [h2, h3, hsq]
  refine ⟨?_, ?_, ?_⟩
  · rw [hD]
    exact (key _ _ hbx hby1 hby2).1
  · rw [hD]
    exact (key _ _ hbx hby1 hby2).2
  · have hrecon : gliderStep start12 0 originSystem ccw =
        start12 + (gliderStep start12 0 originSystem ccw - start12) := by
      ext <;> simp
    rw [hrecon, hD]
    simpa [start12] using hby1

theorem genTrajAux_zero (system : System) (spiral_factor : ℝ) (ccw : Bool) (pos : point) :
    genTrajAux system spiral_factor ccw pos 0 = [] := rfl

theorem genTrajAux_succ (system : System) (spiral_factor : ℝ) (ccw : Bool) (pos : point)
    (fuel : ℕ) :
    genTrajAux system spiral_factor ccw pos (fuel + 1) =
      if (gliderStep pos spiral_factor system ccw - pos).sqmag > sq_upper_dist_limit ∨
          (gliderStep pos spiral_factor system ccw - pos).sqmag < sq_lower_dist_limit then []
      else gliderStep pos spiral_factor system ccw ::
        genTrajAux system spiral_factor ccw (gliderStep pos spiral_factor system ccw) fuel := rfl

theorem traj_origin (ccw : Bool) :
    generateGliderTrajectory start12 originSystem 0 1 ccw =
      [start12, gliderStep start12 0 originSystem ccw] := by
  obtain ⟨hlo, hhi, _⟩ := gliderStep_origin_bounds ccw
  have hcond : ¬ ((gliderStep start12 0 originSystem ccw - start12).sqmag >
        sq_upper_dist_limit ∨
      (gliderStep start12 0 originSystem ccw - start12).sqmag < sq_lower_dist_limit) := by
    push_neg
    exact ⟨hhi, hlo⟩
  unfold generateGliderTrajectory
  rw [show (1 : ℕ) = 0 + 1 from rfl, genTrajAux_succ, if_neg hcond, genTrajAux_zero]

/-- C3 counterexample: with `maxSteps = 1` the returned trajectory from
`start12` in `originSystem` has 2 points, refuting "at most `maxSteps`
points". -/
theorem generateGliderTrajectory_exceeds_maxSteps :
    ¬ (generateGliderTrajectory start12 originSystem 0 1 true).length ≤ 1 := by
  rw [traj_origin true]
  simp

/-- C2 (supporting theorem for the code bug): the trajectory generator
output depends on the orbit-direction bit drawn from the process-global
`rand()` stream.  Concretely, from `start12` in `originSystem` the two
possible `rand()&1` values yield different trajectories (mirror images:
the second point has y ≥ 4 against y ≤ -4), so `findNicePath`, whose
candidate scores depend on these trajectories, is not a function of its
seed alone. -/
theorem generateGliderTrajectory_uses_global_rand :
    generateGliderTrajectory start12 originSystem 0 1 true ≠
      generateGliderTrajectory start12 originSystem 0 1 false := by
  intro hEq
  rw [traj_origin true, traj_origin false] at hEq
  have hstep : gliderStep start12 0 originSystem true = gliderStep start12 0 originSystem false := by
    simpa using hEq
  have hy := congrArg point.y hstep
  have hy1 : 4 ≤ (gliderStep start12 0 originSystem true).y * sgn true :=
    (gliderStep_origin_bounds true).2.2
  have hy2 : 4 ≤ (gliderStep start12 0 originSystem false).y * sgn false :=
    (gliderStep_origin_bounds false).2.2
  rw [show sgn true = 1 by norm_num [sgn]] at hy1
  rw [show sgn false = -1 by norm_num [sgn]] at hy2
  rw [hy] at hy1
  nlinarith [hy1, hy2]

theorem genTrajAux_chain (system : System) (spiral_factor : ℝ) (ccw : Bool) :
    ∀ (fuel : ℕ) (pos : point) (i : ℕ),
      i + 1 < (pos :: genTrajAux system spiral_factor ccw pos fuel).length →
      sq_lower_dist_limit ≤
          ((pos :: genTrajAux system spiral_factor ccw pos fuel).getD (i + 1) ⟨0, 0⟩ -
            (pos :: genTrajAux system spiral_factor ccw pos fuel).getD i ⟨0, 0⟩).sqmag ∧
        ((pos :: genTrajAux system spiral_factor ccw pos fuel).getD (i + 1) ⟨0, 0⟩ -
            (pos :: genTrajAux system spiral_factor ccw pos fuel).getD i ⟨0, 0⟩).sqmag ≤
          sq_upper_dist_limit := by
  intro fuel
  induction fuel with
  | zero =>
    intro pos i h
    rw [genTrajAux_zero] at h
    simp at h
  | succ n ih =>
    intro pos i h
    rw [genTrajAux_succ] at h ⊢
    by_cases hc : (gliderStep pos spiral_factor system ccw - pos).sqmag >
          sq_upper_dist_limit ∨
        (gliderStep pos spiral_factor system ccw - pos).sqmag < sq_lower_dist_limit
    · rw [if_pos hc] at h
      simp at h
    · rw [if_neg hc] at h ⊢
      push_neg at hc
      cases i with
      | zero =>
        simp only [List.getD_cons_succ, List.getD_cons_zero]
        exact ⟨hc.2, hc.1⟩
      | succ j =>
        have h2 : j + 1 <
            (gliderStep pos spiral_factor system ccw ::
              genTrajAux system spiral_factor ccw (gliderStep pos spiral_factor system ccw)
                n).length := by
          simpa using h
        simpa [List.getD_cons_succ] using
          ih (gliderStep pos spiral_factor system ccw) j h2

theorem genTrajAux_stop (system : System) (spiral_factor : ℝ) (ccw : Bool) :
    ∀ (fuel : ℕ) (pos : point),
      (genTrajAux system spiral_factor ccw pos fuel).length < fuel →
      ((gliderStep ((pos :: genTrajAux system spiral_factor ccw pos fuel).getD
            ((pos :: genTrajAux system spiral_factor ccw pos fuel).length - 1) ⟨0, 0⟩)
          spiral_factor system ccw -
          (pos :: genTrajAux system spiral_factor ccw pos fuel).getD
            ((pos :: genTrajAux system spiral_factor ccw pos fuel).length - 1) ⟨0, 0⟩).sqmag <
          sq_lower_dist_limit ∨
        sq_upper_dist_limit <
          (gliderStep ((pos :: genTrajAux system spiral_factor ccw pos fuel).getD
              ((pos :: genTrajAux system spiral_factor ccw pos fuel).length - 1) ⟨0, 0⟩)
            spiral_factor system ccw -
            (pos :: genTrajAux system spiral_factor ccw pos fuel).getD
              ((pos :: genTrajAux system spiral_factor ccw pos fuel).length - 1) ⟨0, 0⟩).sqmag) := by
  intro fuel
  induction fuel with
  | zero =>
    intro pos h
    simp [genTrajAux_zero] at h
  | succ n ih =>
    intro pos h
    rw [genTrajAux_succ] at h ⊢
    by_cases hc : (gliderStep pos spiral_factor system ccw - pos).sqmag >
          sq_upper_dist_limit ∨
        (gliderStep pos spiral_factor system ccw - pos).sqmag < sq_lower_dist_limit
    · rw [if_pos hc]
      simp only [List.length_cons, List.length_nil, Nat.add_sub_cancel, List.getD_cons_zero]
      rcases hc with hc | hc
      · exact Or.inr hc
      · exact Or.inl hc
    · rw [if_neg hc] at h ⊢
      have h2 : (genTrajAux system spiral_factor ccw
          (gliderStep pos spiral_factor system ccw) n).length < n := by
        simp only [List.length_cons] at h
        omega
      have hres := ih (gliderStep pos spiral_factor system ccw) h2
      have hlen : (pos :: gliderStep pos spiral_factor system ccw ::
          genTrajAux system spiral_factor ccw (gliderStep pos spiral_factor system ccw)
            n).length - 1 =
          ((gliderStep pos spiral_factor system ccw ::
            genTrajAux system spiral_factor ccw (gliderStep pos spiral_factor system ccw)
              n).length - 1) + 1 := by
        simp only [List.length_cons]
        omega
      rw [hlen, List.getD_cons_succ]
      exact hres

/-- C7: the trajectory loop stops after a step exactly when the squared
step displacement is below 0.005 (stalled), above 400 (blew up), or the
maximum step count is reached.  Consequently every pair of consecutive
points in the returned trajectory has squared displacement between 0.005
and 400, and whenever the trajectory is shorter than `max_steps + 1`, the
step computed from its last point violates one of the two displacement
limits. -/
theorem generateGliderTrajectory_stop_policy (pos : point) (system : System)
    (spiral_factor : ℝ) (max_steps : ℕ) (ccw : Bool) :
    (∀ i, i + 1 < (generateGliderTrajectory pos system spiral_factor max_steps ccw).length →
      (0.005 : ℝ) ≤
          ((generateGliderTrajectory pos system spiral_factor max_steps ccw).getD (i + 1) ⟨0, 0⟩ -
            (generateGliderTrajectory pos system spiral_factor max_steps ccw).getD i
              ⟨0, 0⟩).sqmag ∧
        ((generateGliderTrajectory pos system spiral_factor max_steps ccw).getD (i + 1) ⟨0, 0⟩ -
            (generateGliderTrajectory pos system spiral_factor max_steps ccw).getD i
              ⟨0, 0⟩).sqmag ≤ 400) ∧
    ((generateGliderTrajectory pos system spiral_factor max_steps ccw).length < max_steps + 1 →
      ((gliderStep ((generateGliderTrajectory pos system spiral_factor max_steps ccw).getD
            ((generateGliderTrajectory pos system spiral_factor max_steps ccw).length - 1)
            ⟨0, 0⟩) spiral_factor system ccw -
          (generateGliderTrajectory pos system spiral_factor max_steps ccw).getD
            ((generateGliderTrajectory pos system spiral_factor max_steps ccw).length - 1)
            ⟨0, 0⟩).sqmag < 0.005 ∨
        (400 : ℝ) <
          (gliderStep ((generateGliderTrajectory pos system spiral_factor max_steps ccw).getD
              ((generateGliderTrajectory pos system spiral_factor max_steps ccw).length - 1)
              ⟨0, 0⟩) spiral_factor system ccw -
            (generateGliderTrajectory pos system spiral_factor max_steps ccw).getD
              ((generateGliderTrajectory pos system spiral_factor max_steps ccw).length - 1)
              ⟨0, 0⟩).sqmag)) := by
  constructor
  · intro i h
    exact genTrajAux_chain system spiral_factor ccw max_steps pos i h
  · intro h
    apply genTrajAux_stop system spiral_factor ccw max_steps pos
    simp only [generateGliderTrajectory, List.length_cons] at h
    omega

/-- Witness for the stop-policy theorem: the concrete two-point
trajectory from `start12` in `originSystem` has an in-range first step. -/
theorem generateGliderTrajectory_stop_policy_witness :
    0 + 1 < (generateGliderTrajectory start12 originSystem 0 1 true).length ∧
      ((0.005 : ℝ) ≤
          ((generateGliderTrajectory start12 originSystem 0 1 true).getD (0 + 1) ⟨0, 0⟩ -
            (generateGliderTrajectory start12 originSystem 0 1 true).getD 0 ⟨0, 0⟩).sqmag ∧
        ((generateGliderTrajectory start12 originSystem 0 1 true).getD (0 + 1) ⟨0, 0⟩ -
            (generateGliderTrajectory start12 originSystem 0 1 true).getD 0 ⟨0, 0⟩).sqmag ≤
          400) := by
  have hlen : 0 + 1 < (generateGliderTrajectory start12 originSystem 0 1 true).length := by
    rw [traj_origin true]
    simp
  exact ⟨hlen,
    (generateGliderTrajectory_stop_policy start12 originSystem 0 1 true).1 0 hlen⟩
